import Mathlib

/-!
# Verification of `pointpats/spacetime.py`

A shallow embedding of the space-time interaction tests of
`src/pointpats/spacetime.py` (Knox, local Knox, Mantel, Jacquez and
modified Knox), together with theorems settling the specification claims.

Modelling conventions:

* coordinates are rationals (`ℚ`); a spatial point is a pair `ℚ × ℚ`;
* Euclidean distances appear in the source only through comparisons
  `dist <= r`; these are embedded as `0 ≤ r ∧ dist² ≤ r²`, which is
  equivalent and keeps everything computable;
* the process-wide NumPy random source is modelled as an explicit stream of
  permutations (lists of indices), one per permutation trial; in-place
  mutation of the caller's arrays (`np.random.shuffle`) is modelled by
  returning the final array state;
* NumPy float arithmetic on the statistics is embedded in `ℚ` (all values
  produced are ratios of small integers, exact in double precision);
* the Poisson CDF (an external SciPy primitive) is embedded over `ℝ`.
-/

namespace Spacetime

/-- Squared Euclidean distance between two planar points.  The source keeps
distance matrices of the (irrational) square roots; all uses are comparisons
against a threshold, embedded via squares below. -/
def sdist2 (p q : ℚ × ℚ) : ℚ := (p.1 - q.1) ^ 2 + (p.2 - q.2) ^ 2

/-- `dist(p,q) ≤ δ` for Euclidean distance: equivalently `0 ≤ δ` and
`dist² ≤ δ²`. -/
def closeS (δ : ℚ) (p q : ℚ × ℚ) : Bool :=
  decide (0 ≤ δ) && decide (sdist2 p q ≤ δ ^ 2)

/-- `|a - b| ≤ τ` for temporal coordinates: equivalently `0 ≤ τ` and
`(a-b)² ≤ τ²`. -/
def closeT (τ : ℚ) (a b : ℚ) : Bool :=
  decide (0 ≤ τ) && decide ((a - b) ^ 2 ≤ τ ^ 2)

/-!
## `_knox` (spacetime.py lines 637-772): neighbor sets and tables

`stree.query_ball_tree(stree, r=delta)` returns for every `i` all `j` with
`dist(i,j) ≤ delta` (including `i` itself); the source then removes `i`
(`set(neighbors).difference([i])`).
-/

/-- Spatial neighbor list of event `i`: all `j ≠ i` within distance `δ`. -/
def sneighbors (s : List (ℚ × ℚ)) (δ : ℚ) (i : ℕ) : List ℕ :=
  (List.range s.length).filter fun j =>
    (j != i) && closeS δ (s.getD i (0, 0)) (s.getD j (0, 0))

/-- Temporal neighbor list of event `i`: all `j ≠ i` within `τ` in time. -/
def tneighbors (t : List ℚ) (τ : ℚ) (i : ℕ) : List ℕ :=
  (List.range t.length).filter fun j =>
    (j != i) && closeT τ (t.getD i 0) (t.getD j 0)

/-- `ns[i]`: number of spatial neighbors of `i`. -/
def nsDeg (s : List (ℚ × ℚ)) (δ : ℚ) (i : ℕ) : ℕ := (sneighbors s δ i).length

/-- `nt[i]`: number of temporal neighbors of `i`. -/
def ntDeg (t : List ℚ) (τ : ℚ) (i : ℕ) : ℕ := (tneighbors t τ i).length

/-- `NS = ns.sum() / 2`: number of unordered spatial neighbor pairs. -/
def knoxNS (s : List (ℚ × ℚ)) (δ : ℚ) : ℚ :=
  (((List.range s.length).map (nsDeg s δ)).sum : ℕ) / 2

/-- `NT = nt.sum() / 2`: number of unordered temporal neighbor pairs. -/
def knoxNT (t : List ℚ) (τ : ℚ) : ℚ :=
  (((List.range t.length).map (ntDeg t τ)).sum : ℕ) / 2

/-- `stneighbors[i] = sneighbors[i] ∩ tneighbors[i]`. -/
def stneighbors (s : List (ℚ × ℚ)) (t : List ℚ) (δ τ : ℚ) (i : ℕ) : List ℕ :=
  (sneighbors s δ i).filter fun j => decide (j ∈ tneighbors t τ i)

/-- `nst[i]`: number of space-time neighbors of `i`. -/
def nstDeg (s : List (ℚ × ℚ)) (t : List ℚ) (δ τ : ℚ) (i : ℕ) : ℕ :=
  (stneighbors s t δ τ i).length

/-- `NST = nst.sum() / 2`: observed number of space-time pairs. -/
def knoxNST (s : List (ℚ × ℚ)) (t : List ℚ) (δ τ : ℚ) : ℚ :=
  (((List.range s.length).map (nstDeg s t δ τ)).sum : ℕ) / 2

/-- `pairs = n * (n-1) / 2` (Python int arithmetic, true division). -/
def knoxPairs (n : ℕ) : ℚ := (n : ℚ) * ((n : ℚ) - 1) / 2

/-- `observed[0,0] = NST`. -/
def observed00 (s : List (ℚ × ℚ)) (t : List ℚ) (δ τ : ℚ) : ℚ := knoxNST s t δ τ

/-- `observed[0,1] = NS - NST` (spatial-only pairs). -/
def observed01 (s : List (ℚ × ℚ)) (t : List ℚ) (δ τ : ℚ) : ℚ :=
  knoxNS s δ - knoxNST s t δ τ

/-- `observed[1,0] = NT - NST` (temporal-only pairs). -/
def observed10 (s : List (ℚ × ℚ)) (t : List ℚ) (δ τ : ℚ) : ℚ :=
  knoxNT t τ - knoxNST s t δ τ

/-- `observed[1,1] = pairs - NST - NS_ - NT_`. -/
def observed11 (s : List (ℚ × ℚ)) (t : List ℚ) (δ τ : ℚ) : ℚ :=
  knoxPairs s.length - knoxNST s t δ τ - (knoxNS s δ - knoxNST s t δ τ)
    - (knoxNT t τ - knoxNST s t δ τ)

/-- `ENST = NS * NT / pairs = expected[0,0]`. -/
def knoxENST (s : List (ℚ × ℚ)) (t : List ℚ) (δ τ : ℚ) : ℚ :=
  knoxNS s δ * knoxNT t τ / knoxPairs s.length

/-!
## Permutation stage of `_knox` (lines 746-770)

Each trial draws `rids = np.random.permutation(ids)`; the random source is
modelled as an explicit list of such draws.
-/

/-- One permutation trial of `_knox`: recompute the space-time pair count
with spatial neighbor sets fixed and indices relabeled by `rids`
(`st += #{j ∈ sneighbors[i] : rids[j] ∈ tneighbors[rids[i]]}`, halved). -/
def knoxPermStat (s : List (ℚ × ℚ)) (t : List ℚ) (δ τ : ℚ)
    (rids : List ℕ) : ℚ :=
  (((List.range s.length).map fun i =>
      ((sneighbors s δ i).filter fun j =>
        decide (rids.getD j 0 ∈ tneighbors t τ (rids.getD i 0))).length).sum : ℕ) / 2

/-- The `exceedence` counter of `_knox`, incremented once per trial whose
permuted statistic is `≥` the observed `nst`. -/
def knoxSimExceedence (s : List (ℚ × ℚ)) (t : List ℚ) (δ τ : ℚ)
    (trials : List (List ℕ)) : ℕ :=
  trials.foldl
    (fun acc rids =>
      if knoxNST s t δ τ ≤ knoxPermStat s t δ τ rids then acc + 1 else acc) 0

/-- `results['p_value_sim'] = (exceedence + 1) / (permutations + 1)`. -/
def knoxSimPValue (s : List (ℚ × ℚ)) (t : List ℚ) (δ τ : ℚ)
    (trials : List (List ℕ)) : ℚ :=
  ((knoxSimExceedence s t δ τ trials : ℚ) + 1) / ((trials.length : ℚ) + 1)

/-- `results['st_perm']` is present (as the array `ST` of retained trial
statistics) only when `keep` is true; a `none` models the absent dict key. -/
def knoxStPerm (s : List (ℚ × ℚ)) (t : List ℚ) (δ τ : ℚ) (keep : Bool)
    (trials : List (List ℕ)) : Option (List ℚ) :=
  if keep then some (trials.map (knoxPermStat s t δ τ)) else none

/-!
## Legacy `knox` function (lines 158-258)

`query_pairs(delta)` yields the unordered spatial pairs; the temporal test
is `d_t <= tau*tau` with no sign guard on `tau`.  Each trial performs
`np.random.shuffle(t_coords)` on the caller's array, so the temporal array
is threaded through the trials and its final state is part of the result.
-/

/-- `kd_s.query_pairs(delta)`: unordered pairs `(i, j)`, `i < j`, within
spatial distance `delta`. -/
def spairs (s : List (ℚ × ℚ)) (δ : ℚ) : List (ℕ × ℕ) :=
  (List.range s.length).flatMap fun i =>
    ((List.range s.length).filter fun j =>
      (i < j : Bool) && closeS δ (s.getD i (0, 0)) (s.getD j (0, 0))).map
      fun j => (i, j)

/-- `n_st` of `knox` for a given temporal array: the number of spatially
neighboring pairs whose squared time difference is `≤ tau * tau`. -/
def knoxLegacyStat (s : List (ℚ × ℚ)) (δ τ : ℚ) (t : List ℚ) : ℕ :=
  ((spairs s δ).filter fun ij =>
    decide ((t.getD ij.1 0 - t.getD ij.2 0) ^ 2 ≤ τ * τ)).length

/-- Outcome of one `np.random.shuffle`: entry `i` of the new array is the
old entry `σ i`. -/
def applyShuffle (σ : List ℕ) (t : List ℚ) : List ℚ :=
  σ.map fun k => t.getD k 0

/-- The permutation loop of `knox`: returns the list `joint` of trial
statistics and the final (mutated) temporal array.  The shuffles compound:
trial `p` sees the array produced by shuffles `1..p`. -/
def knoxTrials (s : List (ℚ × ℚ)) (δ τ : ℚ) :
    List ℚ → List (List ℕ) → List ℕ × List ℚ
  | t, [] => ([], t)
  | t, σ :: σs =>
    let t' := applyShuffle σ t
    let r := knoxTrials s δ τ t' σs
    (knoxLegacyStat s δ τ t' :: r.1, r.2)

/-- Return value of `knox`, together with the final state of the caller's
temporal coordinate array (mutated in place by the source). -/
structure KnoxRet where
  stat : ℕ
  pvalue : Option ℚ
  tFinal : List ℚ
  deriving Repr, DecidableEq

/-- The `knox` function (lines 228-258).  `stream k` is the outcome of the
`k`-th `np.random.shuffle`.  Note the tail fold
`if (permutations - larger) < larger: larger = permutations - larger`
before the pseudo p-value is formed. -/
def knoxRun (s : List (ℚ × ℚ)) (t : List ℚ) (δ τ : ℚ) (P : ℕ)
    (stream : ℕ → List ℕ) : KnoxRet :=
  let obs := knoxLegacyStat s δ τ t
  if P = 0 then ⟨obs, none, t⟩
  else
    let r := knoxTrials s δ τ t ((List.range P).map stream)
    let larger := (r.1.filter fun v => obs ≤ v).length
    let folded := if P - larger < larger then P - larger else larger
    ⟨obs, some (((folded : ℚ) + 1) / ((P : ℚ) + 1)), r.2⟩

/-- The full `knox` call (lines 233-258) including its error path:
`ids = np.array(list(neigh_s))` is a 1-D empty array when `query_pairs`
finds no pair within `delta`, and `ids[:, 0]` then raises `IndexError` —
before the statistic is formed and before the `permutations` check, so the
call fails even with `permutations = 0`. -/
def knoxCall (s : List (ℚ × ℚ)) (t : List ℚ) (δ τ : ℚ) (P : ℕ)
    (stream : ℕ → List ℕ) : Except String KnoxRet :=
  if spairs s δ = [] then .error "IndexError"
  else .ok (knoxRun s t δ τ P stream)

/-- The cumulative temporal array seen by trial `p` of `knox` (shuffles
`0..p` applied to the original array). -/
def cumShuffled (t : List ℚ) (σs : List (List ℕ)) (p : ℕ) : List ℚ :=
  (σs.take (p + 1)).foldl (fun u σ => applyShuffle σ u) t

/-- Claim-side exceedance of `knox`: the number of trials whose recomputed
statistic is `≥` the observed one. -/
def knoxLegacyExc (s : List (ℚ × ℚ)) (t : List ℚ) (δ τ : ℚ) (P : ℕ)
    (stream : ℕ → List ℕ) : ℕ :=
  ((List.range P).filter fun p =>
    knoxLegacyStat s δ τ t
      ≤ knoxLegacyStat s δ τ (cumShuffled t ((List.range P).map stream) p)).length

/-!  ## Poisson CDF (external SciPy primitive) and analytical p-value  -/

/-- SciPy's `poisson.cdf(k, mu)`, the assumed numeric primitive:
`e^(-mu) * Σ_{j ≤ ⌊k⌋} mu^j / j!` for `k ≥ 0` and `0` otherwise.  At
`mu = 0` this is the CDF of the point mass at `0` (SciPy's convention). -/
noncomputable def poissonCDF (k : ℚ) (mu : ℚ) : ℝ :=
  if 0 ≤ k then
    Real.exp (-(mu : ℝ)) *
      ∑ j ∈ Finset.range (⌊k⌋.toNat + 1), (mu : ℝ) ^ j / (Nat.factorial j : ℝ)
  else 0

/-- `results['p_value_poisson'] = 1 - poisson.cdf(NST, expected[0,0])`. -/
noncomputable def knoxPPoisson (s : List (ℚ × ℚ)) (t : List ℚ) (δ τ : ℚ) : ℝ :=
  1 - poissonCDF (knoxNST s t δ τ) (knoxENST s t δ τ)

/-!
## `_knox_local` (lines 876-933) and `Knox_Local` (lines 1028-1051)
-/

/-- Lines 903-906 of `_knox_local`: inside a trial with random permutation
`rids`, force focal unit `i` to keep its own label
(`j = np.where(rids==i); a = rids[i]; rids[j] = a; rids[i] = i`). -/
def focalLabeling (rids : List ℕ) (i : ℕ) : List ℕ :=
  let j := rids.indexOf i
  let a := rids.getD i 0
  (rids.set j a).set i i

/-- Lines 918-919 of `_knox_local`: undo the focal swap
(`rids[j] = i; rids[i] = a`, with `j` and `a` as computed before the swap),
applied to the post-swap array `r`. -/
def focalRestore (rids r : List ℕ) (i : ℕ) : List ℕ :=
  let j := rids.indexOf i
  let a := rids.getD i 0
  (r.set j i).set i a

/-- Lines 909-912: the local statistic of focal `i` under the post-swap
labeling: `#{j ∈ sneighbors[i] : rids[j] ∈ tneighbors[i]}`. -/
def localTrialStat (s : List (ℚ × ℚ)) (t : List ℚ) (δ τ : ℚ)
    (rids : List ℕ) (i : ℕ) : ℕ :=
  ((sneighbors s δ i).filter fun j =>
    decide ((focalLabeling rids i).getD j 0 ∈ tneighbors t τ i)).length

/-- `st_pairs`: the set of sorted space-time neighbor pairs.  The source
collects `sorted((i, j))` for every `j ∈ stneighbors[i]` into a Python set;
since the neighbor relation is symmetric this is exactly the pairs
`(i, j)` with `i < j` and `j ∈ stneighbors[i]`, each listed once. -/
def stPairs (s : List (ℚ × ℚ)) (t : List ℚ) (δ τ : ℚ) : List (ℕ × ℕ) :=
  (List.range s.length).flatMap fun i =>
    ((stneighbors s t δ τ i).filter fun j => (i < j : Bool)).map fun j => (i, j)

/-- `res['nsti'][i]`: every sorted space-time pair increments the local
counts of both of its endpoints. -/
def nstiCount (s : List (ℚ × ℚ)) (t : List ℚ) (δ τ : ℚ) (i : ℕ) : ℕ :=
  ((stPairs s t δ τ).filter fun ab => (ab.1 == i) || (ab.2 == i)).length

/-- The per-focal-unit `exceedence` counter of the conditional permutation
loop: trials whose local statistic reaches `nsti[i]`. -/
def localExceedence (s : List (ℚ × ℚ)) (t : List ℚ) (δ τ : ℚ)
    (trials : List (List ℕ)) (i : ℕ) : ℕ :=
  trials.foldl
    (fun acc rids =>
      if nstiCount s t δ τ i ≤ localTrialStat s t δ τ rids i then acc + 1
      else acc) 0

/-- `res['exceedence_pvalue'][i] = (exceedence[i] + 1) / (permutations + 1)`. -/
def localPSim (s : List (ℚ × ℚ)) (t : List ℚ) (δ τ : ℚ)
    (trials : List (List ℕ)) (i : ℕ) : ℚ :=
  ((localExceedence s t δ τ trials i : ℚ) + 1) / ((trials.length : ℚ) + 1)

/-- SciPy's `hypergeom.cdf(k, M, K, N)` (population `M`, `K` marked,
`N` draws), an assumed numeric primitive: the hypergeometric pmf summed
over `0 ≤ j ≤ k` (out-of-support terms vanish with the binomials). -/
def hypergeomCDF (k : ℤ) (M K N : ℕ) : ℚ :=
  ∑ j ∈ Finset.range (N + 1),
    if (j : ℤ) ≤ k then
      ((Nat.choose K j * Nat.choose (M - K) (N - j) : ℕ) : ℚ)
        / ((Nat.choose M N : ℕ) : ℚ)
    else 0

/-- `ntjis`: the temporal-neighbor counts of all `n` units (line 927). -/
def ntjis (t : List ℚ) (τ : ℚ) : List ℕ := (List.range t.length).map (ntDeg t τ)

/-- Line 929: `1 - hypergeom.cdf(nsti[i]-1, n-1, ntjis, nsi[i]).mean()`;
the CDF broadcasts over the whole vector `ntjis` and `.mean()` divides by
its length. -/
def hgPValue (s : List (ℚ × ℚ)) (t : List ℚ) (δ τ : ℚ) (i : ℕ) : ℚ :=
  1 - ((ntjis t τ).map fun K =>
        hypergeomCDF ((nstiCount s t δ τ i : ℤ) - 1) (s.length - 1) K
          (nsDeg s δ i)).sum / ((ntjis t τ).length : ℚ)

/-- The C5 claim's formula, for comparison: the mean ranges over the
*other* units' temporal-neighbor counts only. -/
def hgPValueClaim (s : List (ℚ × ℚ)) (t : List ℚ) (δ τ : ℚ) (i : ℕ) : ℚ :=
  1 - (∑ j ∈ (Finset.range t.length).erase i,
        hypergeomCDF ((nstiCount s t δ τ i : ℤ) - 1) (s.length - 1)
          (ntDeg t τ j) (nsDeg s δ i)) / ((t.length : ℚ) - 1)

/-- Line 877 of `_knox_local`: the nested global stage is invoked as
`_knox(s_coords, t_coords, delta, tau, permutations=99)` — the caller's
`permutations` and `keep` arguments are not forwarded, so the `st_perm`
entry of the returned dict is built with `keep = False` (i.e. absent). -/
def knoxLocalResStPerm (s : List (ℚ × ℚ)) (t : List ℚ) (δ τ : ℚ)
    (stream : ℕ → List ℕ) : Option (List ℚ) :=
  knoxStPerm s t δ τ false ((List.range 99).map stream)

/-- The global pseudo p-value stored in `_knox_local`'s results: produced
by the nested `_knox` call with its hard-coded 99 permutations. -/
def knoxLocalPSim (s : List (ℚ × ℚ)) (t : List ℚ) (δ τ : ℚ)
    (stream : ℕ → List ℕ) : ℚ :=
  knoxSimPValue s t δ τ ((List.range 99).map stream)

/-- Lines 1038-1041 of `Knox_Local.__init__`: with `permutations > 0` and
`keep`, the constructor reads `results['st_perm']` to bind the `sim`
attribute; a missing dict key is a `KeyError`. -/
def knoxLocalSimAttr (s : List (ℚ × ℚ)) (t : List ℚ) (δ τ : ℚ) (P : ℕ)
    (keep : Bool) (stream : ℕ → List ℕ) : Except String (Option (List ℚ)) :=
  if 0 < P ∧ keep then
    match knoxLocalResStPerm s t δ τ stream with
    | some v => .ok (some v)
    | none => .error "KeyError"
  else .ok none

/-- The identity assignment on `n` units with the labels of units `a` and
`b` transposed (the C2 claim's "transposition of unit i's label with that
of exactly one other unit"). -/
def swapIdentity (n a b : ℕ) : List ℕ :=
  ((List.range n).set a b).set b a

/-!
## `mantel` (lines 261-369)

The distance matrices, power transforms and Pearson correlation work over
`ℝ` (Euclidean distances are square roots); Pearson correlation is the
assumed numeric primitive `scipy.stats.pearsonr`.  The exponents used by
the source (default `-1.0`) are integer-valued and embedded as `ℤ` powers.
-/

/-- Strictly-lower-triangle index pairs `(i, j)`, `j < i`, as enumerated by
`np.tril_indices(n, k=-1)`. -/
def trilPairs (n : ℕ) : List (ℕ × ℕ) :=
  (List.range n).flatMap fun i => (List.range i).map fun j => (i, j)

/-- Lower-triangle vector of the spatial Euclidean distance matrix. -/
noncomputable def distvecS (s : List (ℚ × ℚ)) : List ℝ :=
  (trilPairs s.length).map fun ij =>
    Real.sqrt ((sdist2 (s.getD ij.1 (0, 0)) (s.getD ij.2 (0, 0)) : ℚ) : ℝ)

/-- Lower-triangle vector of the temporal distance matrix. -/
noncomputable def distvecT (t : List ℚ) : List ℝ :=
  (trilPairs t.length).map fun ij =>
    |((t.getD ij.1 0 : ℚ) : ℝ) - ((t.getD ij.2 0 : ℚ) : ℝ)|

/-- Lower-triangle vector of the temporal distance matrix after the joint
row/column shuffle `_shuffle_matrix(timemat, np.arange(n))` with draw `σ`:
entry `(i, j)` becomes `|t[σ i] - t[σ j]|`. -/
noncomputable def distvecTPerm (t : List ℚ) (σ : List ℕ) : List ℝ :=
  (trilPairs t.length).map fun ij =>
    |((t.getD (σ.getD ij.1 0) 0 : ℚ) : ℝ) - ((t.getD (σ.getD ij.2 0) 0 : ℚ) : ℝ)|

/-- `(d + con) ** pow` applied elementwise. -/
noncomputable def transformVec (v : List ℝ) (con : ℝ) (pw : ℤ) : List ℝ :=
  v.map fun d => (d + con) ^ pw

/-- Arithmetic mean of a list of reals. -/
noncomputable def listMean (v : List ℝ) : ℝ := v.sum / (v.length : ℝ)

/-- Pearson correlation coefficient (`scipy.stats.pearsonr`, assumed
numeric primitive). -/
noncomputable def pearson (x y : List ℝ) : ℝ :=
  ((x.zip y).map fun p => (p.1 - listMean x) * (p.2 - listMean y)).sum /
    (Real.sqrt ((x.map fun a => (a - listMean x) ^ 2).sum)
      * Real.sqrt ((y.map fun b => (b - listMean y) ^ 2).sum))

/-- `stat = pearsonr(timevec, distvec)[0]` with both vectors transformed. -/
noncomputable def mantelStat (s : List (ℚ × ℚ)) (t : List ℚ)
    (scon : ℝ) (spow : ℤ) (tcon : ℝ) (tpow : ℤ) : ℝ :=
  pearson (transformVec (distvecT t) tcon tpow)
    (transformVec (distvecS s) scon spow)

/-- A trial statistic of `mantel`: the shuffled temporal vector against the
fixed transformed spatial vector. -/
noncomputable def mantelTrialStat (s : List (ℚ × ℚ)) (t : List ℚ)
    (scon : ℝ) (spow : ℤ) (tcon : ℝ) (tpow : ℤ) (σ : List ℕ) : ℝ :=
  pearson (transformVec (distvecTPerm t σ) tcon tpow)
    (transformVec (distvecS s) scon spow)

/-- `mantel` returns the bare statistic when `permutations == 0` (line
350-351) and a dict with `stat` and `pvalue` otherwise. -/
inductive MantelRet
  | bare (stat : ℝ)
  | withP (stat : ℝ) (pvalue : ℚ)

open Classical in
/-- The `mantel` function (lines 334-369). -/
noncomputable def mantelRun (s : List (ℚ × ℚ)) (t : List ℚ) (P : ℕ)
    (scon : ℝ) (spow : ℤ) (tcon : ℝ) (tpow : ℤ)
    (stream : ℕ → List ℕ) : MantelRet :=
  let stat := mantelStat s t scon spow tcon tpow
  if P = 0 then .bare stat
  else
    let dist := (List.range P).map fun p =>
      mantelTrialStat s t scon spow tcon tpow (stream p)
    let count := (dist.filter fun m => decide (stat ≤ m)).length
    .withP stat (((count : ℚ) + 1) / ((P : ℚ) + 1))

/-!
## `jacquez` (lines 372-484)

`libpysal.weights.KNN` (a k-d tree query, external primitive) is modelled
as: the `k` nearest other points, ordered by distance with ties broken by
index.
-/

/-- Insert index `j` into a list kept sorted by `(key, index)`. -/
def insertByKey (key : ℕ → ℚ) (j : ℕ) : List ℕ → List ℕ
  | [] => [j]
  | x :: xs =>
    if key j < key x ∨ (key j = key x ∧ j < x) then j :: x :: xs
    else x :: insertByKey key j xs

/-- Insertion sort of indices by `(key, index)`. -/
def sortByKey (key : ℕ → ℚ) : List ℕ → List ℕ
  | [] => []
  | x :: xs => insertByKey key x (sortByKey key xs)

/-- The `k` nearest spatial neighbors of `i`, self excluded. -/
def knnS (s : List (ℚ × ℚ)) (k i : ℕ) : List ℕ :=
  (sortByKey (fun j => sdist2 (s.getD i (0, 0)) (s.getD j (0, 0)))
    ((List.range s.length).filter fun j => j != i)).take k

/-- The `k` nearest temporal neighbors of `i`, self excluded. -/
def knnT (t : List ℚ) (k i : ℕ) : List ℕ :=
  (sortByKey (fun j => (t.getD i 0 - t.getD j 0) ^ 2)
    ((List.range t.length).filter fun j => j != i)).take k

/-- `stat`: over all `i`, the number of events in both of `i`'s k-NN sets
(ordered pairs, intentionally not symmetrized). -/
def jacquezStat (s : List (ℚ × ℚ)) (t : List ℚ) (k : ℕ) : ℕ :=
  ((List.range t.length).map fun i =>
    ((knnT t k i).filter fun j => decide (j ∈ knnS s k i)).length).sum

/-- A trial statistic of `jacquez`: temporal k-NN sets recomputed from the
permuted copy `np.random.permutation(time)`, spatial sets fixed. -/
def jacquezTrialStat (s : List (ℚ × ℚ)) (t : List ℚ) (k : ℕ)
    (σ : List ℕ) : ℕ :=
  ((List.range t.length).map fun i =>
    ((knnT (applyShuffle σ t) k i).filter fun j =>
      decide (j ∈ knnS s k i)).length).sum

/-- `jacquez` returns the bare statistic when `permutations == 0` (lines
455-457) and a dict with `stat` and `pvalue` otherwise. -/
inductive JacquezRet
  | bare (stat : ℕ)
  | withP (stat : ℕ) (pvalue : ℚ)
  deriving DecidableEq

/-- The `jacquez` function (lines 431-484). -/
def jacquezRun (s : List (ℚ × ℚ)) (t : List ℚ) (k P : ℕ)
    (stream : ℕ → List ℕ) : JacquezRet :=
  let stat := jacquezStat s t k
  if P = 0 then .bare stat
  else
    let dist := (List.range P).map fun p => jacquezTrialStat s t k (stream p)
    let count := (dist.filter fun m => decide (stat ≤ m)).length
    .withP stat (((count : ℚ) + 1) / ((P : ℚ) + 1))

/-!
## `modified_knox` (lines 487-615)

`n = len(t_coords)`; the boolean threshold matrices include the diagonal.
-/

/-- `spacbin[j][i] = sdistmat[j][i] <= delta` (self-pairs included). -/
def spacbin (s : List (ℚ × ℚ)) (δ : ℚ) (j i : ℕ) : Bool :=
  closeS δ (s.getD j (0, 0)) (s.getD i (0, 0))

/-- `timebin[j][i] = tdistmat[j][i] <= tau` (self-pairs included). -/
def timebin (t : List ℚ) (τ : ℚ) (j i : ℕ) : Bool :=
  closeT τ (t.getD j 0) (t.getD i 0)

/-- `obsstat = knoxmat.sum() - n` with `knoxmat = timemat * spacmat`. -/
def modObsstat (s : List (ℚ × ℚ)) (t : List ℚ) (δ τ : ℚ) : ℤ :=
  (∑ i ∈ Finset.range t.length, ∑ j ∈ Finset.range t.length,
    if spacbin s δ i j ∧ timebin t τ i j then (1 : ℤ) else 0) - t.length

/-- `ssumvec[i] = spacbin.sum(axis=0)[i] - 1` (column sums of booleans). -/
def modSsum (s : List (ℚ × ℚ)) (δ : ℚ) (n i : ℕ) : ℤ :=
  (((List.range n).filter fun j => spacbin s δ j i).length : ℤ) - 1

/-- `tsumvec[i] = timebin.sum(axis=0)[i] - 1`. -/
def modTsum (t : List ℚ) (τ : ℚ) (n i : ℕ) : ℤ :=
  (((List.range n).filter fun j => timebin t τ j i).length : ℤ) - 1

/-- `expstat = (ssumvec * tsumvec).sum()`. -/
def modExpstat (s : List (ℚ × ℚ)) (t : List ℚ) (δ τ : ℚ) : ℤ :=
  ∑ i ∈ Finset.range t.length,
    modSsum s δ t.length i * modTsum t τ t.length i

/-- `stat = (obsstat - expstat / (n - 1.0)) / 2.0`. -/
def modKnoxStat (s : List (ℚ × ℚ)) (t : List ℚ) (δ τ : ℚ) : ℚ :=
  ((modObsstat s t δ τ : ℚ)
    - (modExpstat s t δ τ : ℚ) / ((t.length : ℚ) - 1)) / 2

/-- Elements of a trial of `modified_knox`: the temporal distance matrix is
jointly row/column shuffled (`rtdistmat[i][j] = tdistmat[σ i][σ j]`). -/
def timebinPerm (t : List ℚ) (τ : ℚ) (σ : List ℕ) (j i : ℕ) : Bool :=
  closeT τ (t.getD (σ.getD j 0) 0) (t.getD (σ.getD i 0) 0)

/-- A trial statistic of `modified_knox` (lines 588-605). -/
def modKnoxTrialStat (s : List (ℚ × ℚ)) (t : List ℚ) (δ τ : ℚ)
    (σ : List ℕ) : ℚ :=
  let obs : ℤ := (∑ i ∈ Finset.range t.length, ∑ j ∈ Finset.range t.length,
    if spacbin s δ i j ∧ timebinPerm t τ σ i j then (1 : ℤ) else 0) - t.length
  let expd : ℤ := ∑ i ∈ Finset.range t.length,
    modSsum s δ t.length i *
      ((((List.range t.length).filter fun j => timebinPerm t τ σ j i).length : ℤ) - 1)
  ((obs : ℚ) - (expd : ℚ) / ((t.length : ℚ) - 1)) / 2

/-- `modified_knox` returns the bare statistic when `permutations == 0`
(lines 583-584) and a dict with `stat` and `pvalue` otherwise. -/
inductive ModKnoxRet
  | bare (stat : ℚ)
  | withP (stat : ℚ) (pvalue : ℚ)
  deriving DecidableEq

/-- The `modified_knox` function (lines 553-615). -/
def modKnoxRun (s : List (ℚ × ℚ)) (t : List ℚ) (δ τ : ℚ) (P : ℕ)
    (stream : ℕ → List ℕ) : ModKnoxRet :=
  let stat := modKnoxStat s t δ τ
  if P = 0 then .bare stat
  else
    let dist := (List.range P).map fun p => modKnoxTrialStat s t δ τ (stream p)
    let count := (dist.filter fun m => decide (stat ≤ m)).length
    .withP stat (((count : ℚ) + 1) / ((P : ℚ) + 1))

/-- Degree of `i` in the within-`δ` spatial graph with self excluded (the
C10 claim's "spatial degree excluding self"). -/
def claimSDeg (s : List (ℚ × ℚ)) (δ : ℚ) (n i : ℕ) : ℕ :=
  ((List.range n).filter fun j => (j != i) && spacbin s δ j i).length

/-- Degree of `i` in the within-`τ` temporal graph with self excluded. -/
def claimTDeg (t : List ℚ) (τ : ℚ) (n i : ℕ) : ℕ :=
  ((List.range n).filter fun j => (j != i) && timebin t τ j i).length

/-- The C10 claim's expectation term: `Σ_i sdeg_i · tdeg_i` with degrees
excluding self. -/
def claimExpstat (s : List (ℚ × ℚ)) (t : List ℚ) (δ τ : ℚ) : ℤ :=
  ∑ i ∈ Finset.range t.length,
    (claimSDeg s δ t.length i : ℤ) * (claimTDeg t τ t.length i : ℤ)

/-!  ## Helper lemmas  -/

/-- Counting matches by a left fold (as the `exceedence` counter does)
equals the length of the filtered list. -/
theorem foldl_count_eq_filter_length {α : Type} (p : α → Prop) [DecidablePred p] :
    ∀ (l : List α) (a : ℕ),
      l.foldl (fun acc x => if p x then acc + 1 else acc) a
        = a + (l.filter fun x => decide (p x)).length
  | [], a => by simp
  | x :: xs, a => by
    by_cases hp : p x <;>
      simp [List.filter_cons, hp, foldl_count_eq_filter_length p xs] <;> omega

/-- The trial loop of `knox` produces, at each trial `p`, the statistic of
the cumulatively shuffled array, and ends with the fully shuffled array. -/
theorem knoxTrials_spec (s : List (ℚ × ℚ)) (δ τ : ℚ) :
    ∀ (σs : List (List ℕ)) (t : List ℚ),
      knoxTrials s δ τ t σs
        = (((List.range σs.length).map fun p =>
              knoxLegacyStat s δ τ (cumShuffled t σs p)),
           σs.foldl (fun u σ => applyShuffle σ u) t)
  | [], t => by simp [knoxTrials]
  | σ :: σs, t => by
    have ih := knoxTrials_spec s δ τ σs (applyShuffle σ t)
    have hcum0 : cumShuffled t (σ :: σs) 0 = applyShuffle σ t := by
      simp [cumShuffled]
    have hcum : ∀ p, cumShuffled t (σ :: σs) (p + 1)
        = cumShuffled (applyShuffle σ t) σs p := by
      intro p; simp [cumShuffled]
    simp only [knoxTrials, ih, List.length_cons, List.range_succ_eq_map,
      List.map_cons, List.map_map, List.foldl_cons, Prod.mk.injEq]
    refine ⟨?_, trivial⟩
    rw [hcum0]
    refine congrArg (List.cons _) ?_
    refine List.map_congr_left fun p _ => ?_
    simp [Function.comp, hcum p]

/-- **C4**: for every event set with `n ≥ 2` and thresholds `δ, τ > 0`, the
four cells of the observed contingency table built by `_knox` sum to
`n·(n-1)/2` exactly. -/
theorem C4_observed_table_sums_to_pairs (s : List (ℚ × ℚ)) (t : List ℚ)
    (δ τ : ℚ) (hn : 2 ≤ s.length) (hδ : 0 < δ) (hτ : 0 < τ) :
    observed00 s t δ τ + observed01 s t δ τ + observed10 s t δ τ
      + observed11 s t δ τ = (s.length : ℚ) * ((s.length : ℚ) - 1) / 2 := by
  unfold observed00 observed01 observed10 observed11 knoxPairs
  ring

/-- Witness for C4 at a concrete three-event input. -/
theorem C4_observed_table_sums_to_pairs_witness :
    observed00 [((0 : ℚ), 0), (1, 0), (0, 3)] [0, 1, 9] 2 2
      + observed01 [((0 : ℚ), 0), (1, 0), (0, 3)] [0, 1, 9] 2 2
      + observed10 [((0 : ℚ), 0), (1, 0), (0, 3)] [0, 1, 9] 2 2
      + observed11 [((0 : ℚ), 0), (1, 0), (0, 3)] [0, 1, 9] 2 2
      = (([((0 : ℚ), 0), (1, 0), (0, 3)] : List (ℚ × ℚ)).length : ℚ)
        * ((([((0 : ℚ), 0), (1, 0), (0, 3)] : List (ℚ × ℚ)).length : ℚ) - 1) / 2 :=
  C4_observed_table_sums_to_pairs _ _ _ _ (by decide) (by norm_num) (by norm_num)

/-- **C1** (counterexample): the legacy `knox` function does *not* report
`(exceedance + 1) / (P + 1)`.  Two coincident-in-time events one space unit
apart, `P = 1`, identity shuffle: the trial ties the observed statistic, so
the exceedance is `1` and the claimed p-value would be `(1+1)/(1+1) = 1`,
but `knox` folds the tail and reports `1/2`. -/
theorem C1_knox_folds_tail_counterexample :
    (knoxRun [((0 : ℚ), 0), (1, 0)] [0, 0] 2 1 1 fun _ => [0, 1]).pvalue
      = some (1 / 2)
    ∧ knoxLegacyExc [((0 : ℚ), 0), (1, 0)] [0, 0] 2 1 1 (fun _ => [0, 1]) = 1
    ∧ ((1 : ℚ) / 2) ≠ ((1 : ℚ) + 1) / ((1 : ℚ) + 1) := by
  with_unfolding_all decide

/-- **C1** (amended): `_knox` reports
`p_value_sim = (exceedance + 1) / (P + 1)` with the exceedance counting
trials whose recomputed statistic is `≥` the observed `NST`; the legacy
`knox` function instead reports `(min(exceedance, P - exceedance) + 1) / (P + 1)`,
folding the upper tail. -/
theorem C1_pseudo_pvalue_formula (s : List (ℚ × ℚ)) (t : List ℚ) (δ τ : ℚ)
    (trials : List (List ℕ)) (P : ℕ) (stream : ℕ → List ℕ)
    (hn : 2 ≤ s.length) (hP : 0 < P) :
    knoxSimPValue s t δ τ trials
      = (((trials.filter fun rids =>
            decide (knoxNST s t δ τ ≤ knoxPermStat s t δ τ rids)).length : ℚ) + 1)
        / ((trials.length : ℚ) + 1)
    ∧ (knoxRun s t δ τ P stream).pvalue
      = some ((((min (knoxLegacyExc s t δ τ P stream)
            (P - knoxLegacyExc s t δ τ P stream) : ℕ) : ℚ) + 1) / ((P : ℚ) + 1)) := by
  constructor
  · unfold knoxSimPValue knoxSimExceedence
    rw [foldl_count_eq_filter_length (fun rids =>
      knoxNST s t δ τ ≤ knoxPermStat s t δ τ rids)]
    simp
  · unfold knoxRun
    rw [if_neg (by omega : ¬ P = 0)]
    simp only [knoxTrials_spec s δ τ ((List.range P).map stream) t]
    have hexc : (((List.range ((List.range P).map stream).length).map fun p =>
          knoxLegacyStat s δ τ
            (cumShuffled t ((List.range P).map stream) p)).filter fun v =>
              knoxLegacyStat s δ τ t ≤ v).length
        = knoxLegacyExc s t δ τ P stream := by
      unfold knoxLegacyExc
      rw [← List.countP_eq_length_filter, ← List.countP_eq_length_filter,
        List.countP_map]
      simp only [List.length_map, List.length_range]
      rfl
    rw [hexc]
    have hfold : (if P - knoxLegacyExc s t δ τ P stream
            < knoxLegacyExc s t δ τ P stream
          then P - knoxLegacyExc s t δ τ P stream
          else knoxLegacyExc s t δ τ P stream)
        = min (knoxLegacyExc s t δ τ P stream)
            (P - knoxLegacyExc s t δ τ P stream) := by
      rcases Nat.lt_or_ge (P - knoxLegacyExc s t δ τ P stream)
          (knoxLegacyExc s t δ τ P stream) with h | h
      · rw [if_pos h]; omega
      · rw [if_neg (Nat.not_lt.mpr h)]; omega
    rw [hfold]

/-- Witness for the amended C1 at a concrete two-event input with one
trial. -/
theorem C1_pseudo_pvalue_formula_witness :
    knoxSimPValue [((0 : ℚ), 0), (1, 0)] [0, 1] 2 2 [[1, 0]]
      = ((([[1, 0]].filter fun rids =>
            decide (knoxNST [((0 : ℚ), 0), (1, 0)] [0, 1] 2 2
              ≤ knoxPermStat [((0 : ℚ), 0), (1, 0)] [0, 1] 2 2 rids)).length : ℚ) + 1)
        / ((([[1, 0]] : List (List ℕ)).length : ℚ) + 1)
    ∧ (knoxRun [((0 : ℚ), 0), (1, 0)] [0, 1] 2 2 1 fun _ => [1, 0]).pvalue
      = some ((((min (knoxLegacyExc [((0 : ℚ), 0), (1, 0)] [0, 1] 2 2 1 fun _ => [1, 0])
            (1 - knoxLegacyExc [((0 : ℚ), 0), (1, 0)] [0, 1] 2 2 1 fun _ => [1, 0]) : ℕ) : ℚ) + 1)
          / (((1 : ℕ) : ℚ) + 1)) :=
  C1_pseudo_pvalue_formula [((0 : ℚ), 0), (1, 0)] [0, 1] 2 2 [[1, 0]] 1
    (fun _ => [1, 0]) (by decide) (by decide)

/-- **C9** (counterexample): not every valid `permutations = 0` call
succeeds.  Two events 100 apart with `delta = 1` (a valid input: `n ≥ 2`,
positive thresholds): `query_pairs` is empty, so `ids[:, 0]` raises
`IndexError` in `knox` before the `permutations` check is ever reached. -/
theorem C9_knox_empty_pairs_error_counterexample :
    spairs [((0 : ℚ), 0), (100, 0)] 1 = []
    ∧ knoxCall [((0 : ℚ), 0), (100, 0)] [0, 1] 1 1 0 (fun _ => [0, 1])
        = .error "IndexError" := by
  have he : spairs [((0 : ℚ), 0), (100, 0)] 1 = [] := by
    with_unfolding_all decide
  refine ⟨he, ?_⟩
  unfold knoxCall
  rw [if_pos he]

/-- **C9** (amended): with `permutations = 0`, `mantel`, `jacquez` and
`modified_knox` return the bare statistic with no p-value field, and `knox`
returns a dict holding only the statistic — provided at least one spatial
pair lies within `delta`; with no such pair, `knox` raises `IndexError`
(at `ids[:, 0]`) regardless of the `permutations` argument. -/
theorem C9_zero_permutations_bare_stat (s : List (ℚ × ℚ)) (t : List ℚ)
    (δ τ : ℚ) (scon : ℝ) (spow : ℤ) (tcon : ℝ) (tpow : ℤ) (k : ℕ)
    (stream : ℕ → List ℕ) (h : spairs s δ ≠ []) :
    knoxCall s t δ τ 0 stream = .ok ⟨knoxLegacyStat s δ τ t, none, t⟩
    ∧ mantelRun s t 0 scon spow tcon tpow stream
        = .bare (mantelStat s t scon spow tcon tpow)
    ∧ jacquezRun s t k 0 stream = .bare (jacquezStat s t k)
    ∧ modKnoxRun s t δ τ 0 stream = .bare (modKnoxStat s t δ τ) := by
  refine ⟨?_, rfl, rfl, rfl⟩
  unfold knoxCall
  rw [if_neg h]
  rfl

/-- Witness for the amended C9 at a concrete input with one spatial pair
within `delta`. -/
theorem C9_zero_permutations_bare_stat_witness :
    knoxCall [((0 : ℚ), 0), (1, 0)] [0, 1] 2 2 0 (fun _ => [0, 1])
      = .ok ⟨knoxLegacyStat [((0 : ℚ), 0), (1, 0)] 2 2 [0, 1], none, [0, 1]⟩
    ∧ mantelRun [((0 : ℚ), 0), (1, 0)] [0, 1] 0 1 (-1) 1 (-1) (fun _ => [0, 1])
        = .bare (mantelStat [((0 : ℚ), 0), (1, 0)] [0, 1] 1 (-1) 1 (-1))
    ∧ jacquezRun [((0 : ℚ), 0), (1, 0)] [0, 1] 1 0 (fun _ => [0, 1])
        = .bare (jacquezStat [((0 : ℚ), 0), (1, 0)] [0, 1] 1)
    ∧ modKnoxRun [((0 : ℚ), 0), (1, 0)] [0, 1] 2 2 0 (fun _ => [0, 1])
        = .bare (modKnoxStat [((0 : ℚ), 0), (1, 0)] [0, 1] 2 2) :=
  C9_zero_permutations_bare_stat [((0 : ℚ), 0), (1, 0)] [0, 1] 2 2 1 (-1) 1
    (-1) 1 (fun _ => [0, 1]) (by with_unfolding_all decide)

/-- `sdist2` is nonnegative. -/
theorem sdist2_nonneg (p q : ℚ × ℚ) : 0 ≤ sdist2 p q := by
  unfold sdist2; positivity

/-- `sdist2` vanishes only between equal points. -/
theorem sdist2_eq_zero_iff (p q : ℚ × ℚ) : sdist2 p q = 0 ↔ p = q := by
  constructor
  · intro h
    unfold sdist2 at h
    have ha : (p.1 - q.1) ^ 2 = 0 := by
      nlinarith [sq_nonneg (p.1 - q.1), sq_nonneg (p.2 - q.2)]
    have hb : (p.2 - q.2) ^ 2 = 0 := by
      nlinarith [sq_nonneg (p.1 - q.1), sq_nonneg (p.2 - q.2)]
    have ha' : p.1 - q.1 = 0 := by
      exact (pow_eq_zero_iff (by norm_num : (2 : ℕ) ≠ 0)).mp ha
    have hb' : p.2 - q.2 = 0 := by
      exact (pow_eq_zero_iff (by norm_num : (2 : ℕ) ≠ 0)).mp hb
    exact Prod.ext (by linarith) (by linarith)
  · rintro rfl
    unfold sdist2; ring

/-- A nonpositive spatial threshold admits no distinct close points. -/
theorem closeS_eq_false_of_nonpos {δ : ℚ} (hδ : δ ≤ 0) {p q : ℚ × ℚ}
    (hpq : p ≠ q) : closeS δ p q = false := by
  unfold closeS
  rcases lt_or_eq_of_le hδ with h | h
  · simp [not_le.mpr h]
  · subst h
    have h2 : 0 < sdist2 p q :=
      (sdist2_nonneg p q).lt_of_ne
        (fun he => hpq ((sdist2_eq_zero_iff p q).mp he.symm))
    simp [h2]

/-- A nonpositive temporal threshold admits no distinct close times. -/
theorem closeT_eq_false_of_nonpos {τ : ℚ} (hτ : τ ≤ 0) {a b : ℚ}
    (hab : a ≠ b) : closeT τ a b = false := by
  unfold closeT
  rcases lt_or_eq_of_le hτ with h | h
  · simp [not_le.mpr h]
  · subst h
    have h2 : 0 < (a - b) ^ 2 := by
      have hne : a - b ≠ 0 := sub_ne_zero.mpr hab
      positivity
    simp [h2]

/-- With `δ ≤ 0` and pairwise-distinct spatial coordinates, every spatial
neighbor set is empty. -/
theorem sneighbors_eq_nil (s : List (ℚ × ℚ)) (δ : ℚ) (hδ : δ ≤ 0)
    (hs : ∀ i, i < s.length → ∀ j, j < s.length → i ≠ j →
      s.getD i (0, 0) ≠ s.getD j (0, 0))
    (i : ℕ) (hi : i < s.length) : sneighbors s δ i = [] := by
  unfold sneighbors
  rw [List.filter_eq_nil_iff]
  intro j hj
  rw [List.mem_range] at hj
  by_cases hji : j = i
  · simp [hji]
  · have hne : s.getD i (0, 0) ≠ s.getD j (0, 0) :=
      hs i hi j hj (fun he => hji he.symm)
    rw [closeS_eq_false_of_nonpos hδ hne]
    simp

/-- With `τ ≤ 0` and pairwise-distinct times, every temporal neighbor set
is empty. -/
theorem tneighbors_eq_nil (t : List ℚ) (τ : ℚ) (hτ : τ ≤ 0)
    (ht : ∀ i, i < t.length → ∀ j, j < t.length → i ≠ j →
      t.getD i 0 ≠ t.getD j 0)
    (i : ℕ) (hi : i < t.length) : tneighbors t τ i = [] := by
  unfold tneighbors
  rw [List.filter_eq_nil_iff]
  intro j hj
  rw [List.mem_range] at hj
  by_cases hji : j = i
  · simp [hji]
  · have hne : t.getD i 0 ≠ t.getD j 0 := ht i hi j hj (fun he => hji he.symm)
    rw [closeT_eq_false_of_nonpos hτ hne]
    simp

/-- SciPy's Poisson CDF at mean `0` evaluated at `0` is `1` (point mass). -/
theorem poissonCDF_zero_zero : poissonCDF 0 0 = 1 := by
  unfold poissonCDF
  rw [if_pos (le_refl (0 : ℚ))]
  norm_num [Real.exp_zero]

/-- Sum of a mapped index range as a `Finset` sum. -/
theorem sum_map_range (n : ℕ) (g : ℕ → ℚ) :
    ((List.range n).map g).sum = ∑ j ∈ Finset.range n, g j := by
  induction n with
  | zero => simp
  | succ m ih =>
    rw [List.range_succ, List.map_append, List.sum_append,
      Finset.sum_range_succ, ih]
    simp

/-- **C7** (counterexample): with `δ = -1` the observed `NST` is `0` and
the expected count is `0`, so `p_value_poisson = 1 - poisson.cdf(0, 0) = 0`
— not `1` as the claim states. -/
theorem C7_p_poisson_is_zero_counterexample :
    knoxNST [((0 : ℚ), 0), (3, 0)] [0, 10] (-1) 1 = 0
    ∧ knoxPPoisson [((0 : ℚ), 0), (3, 0)] [0, 10] (-1) 1 ≠ 1 := by
  have h1 : knoxNST [((0 : ℚ), 0), (3, 0)] [0, 10] (-1) 1 = 0 := by
    with_unfolding_all decide
  have h2 : knoxENST [((0 : ℚ), 0), (3, 0)] [0, 10] (-1) 1 = 0 := by
    with_unfolding_all decide
  refine ⟨h1, ?_⟩
  unfold knoxPPoisson
  rw [h1, h2, poissonCDF_zero_zero]
  norm_num

/-- **C7** (amended): with `n ≥ 2`, pairwise-distinct coordinates and
`δ ≤ 0` or `τ ≤ 0`, the global Knox test degenerates to `NST = 0` with
analytical Poisson p-value `0` (not `1`: the Poisson CDF at mean `0` is the
point mass at `0`). -/
theorem C7_degenerate_thresholds (s : List (ℚ × ℚ)) (t : List ℚ) (δ τ : ℚ)
    (hlen : t.length = s.length) (hn : 2 ≤ s.length)
    (hs : ∀ i, i < s.length → ∀ j, j < s.length → i ≠ j →
      s.getD i (0, 0) ≠ s.getD j (0, 0))
    (ht : ∀ i, i < t.length → ∀ j, j < t.length → i ≠ j →
      t.getD i 0 ≠ t.getD j 0)
    (hthr : δ ≤ 0 ∨ τ ≤ 0) :
    knoxNST s t δ τ = 0 ∧ knoxPPoisson s t δ τ = 0 := by
  have hst : ∀ i, i < s.length → stneighbors s t δ τ i = [] := by
    intro i hi
    rcases hthr with h | h
    · unfold stneighbors
      rw [sneighbors_eq_nil s δ h hs i hi]
      rfl
    · unfold stneighbors
      have htn : tneighbors t τ i = [] :=
        tneighbors_eq_nil t τ h ht i (by omega)
      rw [List.filter_eq_nil_iff]
      intro j _
      simp [htn]
  have hNST : knoxNST s t δ τ = 0 := by
    unfold knoxNST
    have hz : ((List.range s.length).map (nstDeg s t δ τ)).sum = 0 := by
      apply List.sum_eq_zero
      intro x hx
      rw [List.mem_map] at hx
      obtain ⟨i, hi, rfl⟩ := hx
      rw [List.mem_range] at hi
      unfold nstDeg
      rw [hst i hi]
      rfl
    rw [hz]
    norm_num
  have hENST : knoxENST s t δ τ = 0 := by
    rcases hthr with h | h
    · have hNS : knoxNS s δ = 0 := by
        unfold knoxNS
        have hz : ((List.range s.length).map (nsDeg s δ)).sum = 0 := by
          apply List.sum_eq_zero
          intro x hx
          rw [List.mem_map] at hx
          obtain ⟨i, hi, rfl⟩ := hx
          rw [List.mem_range] at hi
          unfold nsDeg
          rw [sneighbors_eq_nil s δ h hs i hi]
          rfl
        rw [hz]
        norm_num
      unfold knoxENST
      rw [hNS]
      simp
    · have hNT : knoxNT t τ = 0 := by
        unfold knoxNT
        have hz : ((List.range t.length).map (ntDeg t τ)).sum = 0 := by
          apply List.sum_eq_zero
          intro x hx
          rw [List.mem_map] at hx
          obtain ⟨i, hi, rfl⟩ := hx
          rw [List.mem_range] at hi
          unfold ntDeg
          rw [tneighbors_eq_nil t τ h ht i hi]
          rfl
        rw [hz]
        norm_num
      unfold knoxENST
      rw [hNT]
      simp
  refine ⟨hNST, ?_⟩
  unfold knoxPPoisson
  rw [hNST, hENST, poissonCDF_zero_zero]
  norm_num

/-- Witness for the amended C7 with `τ = -2` on two distinct events. -/
theorem C7_degenerate_thresholds_witness :
    knoxNST [((0 : ℚ), 0), (3, 0)] [0, 7] 1 (-2) = 0
    ∧ knoxPPoisson [((0 : ℚ), 0), (3, 0)] [0, 7] 1 (-2) = 0 :=
  C7_degenerate_thresholds _ _ _ _ (by decide) (by decide)
    (by with_unfolding_all decide) (by with_unfolding_all decide)
    (Or.inr (by norm_num))

/-- **C6** (counterexample): `_knox` performs no input-size validation: a
single-event input flows through the whole statistic computation and yields
the degenerate result (`NST = 0`, zero total pair count) instead of a
domain-size error. -/
theorem C6_no_size_validation_counterexample :
    knoxNST [((0 : ℚ), 0)] [0] 1 1 = 0
    ∧ observed00 [((0 : ℚ), 0)] [0] 1 1 = 0
    ∧ knoxPairs ([((0 : ℚ), 0)] : List (ℚ × ℚ)).length = 0 := by
  with_unfolding_all decide

/-- **C6** (amended): no size check exists; for fewer than 2 events the
`_knox` statistics are computed and come out degenerate (zero space-time
pair count and zero observed top-left cell), with no error raised. -/
theorem C6_small_input_degenerate (s : List (ℚ × ℚ)) (t : List ℚ) (δ τ : ℚ)
    (h : s.length ≤ 1) :
    knoxNST s t δ τ = 0 ∧ observed00 s t δ τ = 0 := by
  have key : ((List.range s.length).map (nstDeg s t δ τ)).sum = 0 := by
    rcases Nat.le_one_iff_eq_zero_or_eq_one.mp h with h0 | h1
    · rw [h0]; rfl
    · rw [h1]
      have hr1 : List.range 1 = [0] := by decide
      have h2 : sneighbors s δ 0 = [] := by
        unfold sneighbors
        rw [h1, hr1]
        simp
      simp [hr1, nstDeg, stneighbors, h2]
  have hNST : knoxNST s t δ τ = 0 := by
    unfold knoxNST
    rw [key]
    norm_num
  exact ⟨hNST, hNST⟩

/-- Witness for the amended C6 at a concrete single-event input. -/
theorem C6_small_input_degenerate_witness :
    knoxNST [((2 : ℚ), 2)] [5] 3 4 = 0 ∧ observed00 [((2 : ℚ), 2)] [5] 3 4 = 0 :=
  C6_small_input_degenerate _ _ _ _ (by decide)

/-- **C3** (code bug): `_knox_local` invokes `_knox` with a hard-coded
`permutations=99` and without forwarding `keep`, so `results['st_perm']` is
absent; constructing `Knox_Local` with `permutations = 5` and `keep = True`
hits a `KeyError` instead of binding `sim` to 5 retained statistics. -/
theorem C3_knox_local_keep_keyerror :
    knoxLocalSimAttr [((0 : ℚ), 0), (1, 0)] [0, 1] 2 2 5 true (fun _ => [0, 1])
      = .error "KeyError"
    ∧ knoxLocalResStPerm [((0 : ℚ), 0), (1, 0)] [0, 1] 2 2 (fun _ => [0, 1])
      = none :=
  ⟨rfl, rfl⟩

/-- **C5** (counterexample): at a three-event input the code's
hypergeometric p-value for unit `0` averages the CDF over all three units'
temporal-neighbor counts (value `2/3`), while the claim's
"other units only" average gives `1/2`. -/
theorem C5_hg_mean_includes_focal_counterexample :
    hgPValue [((0 : ℚ), 0), (1, 0), (0, 1)] [0, 1, 100] 2 2 0 = 2 / 3
    ∧ hgPValueClaim [((0 : ℚ), 0), (1, 0), (0, 1)] [0, 1, 100] 2 2 0 = 1 / 2
    ∧ ((2 : ℚ) / 3) ≠ 1 / 2 := by
  with_unfolding_all decide

/-- **C5** (amended): the analytical local p-value equals one minus the
mean — over all `n` units' temporal-neighbor counts, unit `i`'s own
included — of the hypergeometric CDF at `NSTi - 1` with population `n - 1`
and draw size `nsi[i]`. -/
theorem C5_hg_pvalue_formula (s : List (ℚ × ℚ)) (t : List ℚ) (δ τ : ℚ)
    (i : ℕ) :
    hgPValue s t δ τ i
      = 1 - (∑ j ∈ Finset.range t.length,
          hypergeomCDF ((nstiCount s t δ τ i : ℤ) - 1) (s.length - 1)
            (ntDeg t τ j) (nsDeg s δ i)) / ((t.length : ℚ)) := by
  unfold hgPValue ntjis
  rw [List.map_map, sum_map_range]
  simp [Function.comp]

/-- `getD` after `set` at the written position. -/
theorem getD_set_self {α : Type} (l : List α) (m : ℕ) (v d : α)
    (h : m < l.length) : (l.set m v).getD m d = v := by
  have h2 : m < (l.set m v).length := by simpa using h
  rw [List.getD_eq_getElem?_getD, List.getElem?_eq_getElem h2,
    List.getElem_set_self h2]
  rfl

/-- `getD` after `set` at a different position. -/
theorem getD_set_ne {α : Type} (l : List α) (m m' : ℕ) (v d : α)
    (hne : m ≠ m') : (l.set m v).getD m' d = l.getD m' d := by
  rcases Nat.lt_or_ge m' (l.length) with h | h
  · have h2 : m' < (l.set m v).length := by simpa using h
    rw [List.getD_eq_getElem?_getD, List.getElem?_eq_getElem h2,
      List.getD_eq_getElem?_getD, List.getElem?_eq_getElem h,
      List.getElem_set_ne hne]
  · have h2 : (l.set m v).length ≤ m' := by simpa using h
    rw [List.getD_eq_getElem?_getD, List.getElem?_eq_none h2,
      List.getD_eq_getElem?_getD, List.getElem?_eq_none h]

/-- Writing back the value already stored is a no-op. -/
theorem set_getD_self {α : Type} : ∀ (l : List α) (m : ℕ) (d : α),
    m < l.length → l.set m (l.getD m d) = l
  | _ :: _, 0, _, _ => rfl
  | a :: l, m + 1, d, h => by
    show a :: l.set m ((a :: l).getD (m + 1) d) = a :: l
    rw [List.getD_cons_succ]
    rw [set_getD_self l m d (by simpa using h)]

/-- **C2** (counterexample): in the trial with random permutation
`[1, 2, 0]` and focal unit `0`, the labeling actually used is `[0, 2, 1]`:
it transposes the labels of units `1` and `2` and leaves unit `0`'s label
unchanged — it is not the original assignment with unit `0`'s label
transposed with exactly one other unit's. -/
theorem C2_not_a_transposition_counterexample :
    focalLabeling [1, 2, 0] 0 = [0, 2, 1]
    ∧ (∀ m, m < 3 → focalLabeling [1, 2, 0] 0 ≠ swapIdentity 3 0 m)
    ∧ focalLabeling [1, 2, 0] 0 ≠ List.range 3 := by decide

/-- **C2** (amended): each conditional trial for focal `i` starts from the
trial's full random permutation `rids` and forces position `i` to label `i`
(swapping with the position that held label `i`); positions other than `i`
and `rids.indexOf i` keep the random permutation's labels (not the original
ones), and afterwards the swap is undone, restoring the trial's random
permutation `rids` (not the identity assignment). -/
theorem C2_focal_trial_labeling (rids : List ℕ) (n i : ℕ)
    (hperm : rids.Perm (List.range n)) (hi : i < n) :
    (focalLabeling rids i).getD i 0 = i
    ∧ (focalLabeling rids i).getD (rids.indexOf i) 0 = rids.getD i 0
    ∧ (∀ m, m < n → m ≠ i → m ≠ rids.indexOf i →
        (focalLabeling rids i).getD m 0 = rids.getD m 0)
    ∧ focalRestore rids (focalLabeling rids i) i = rids := by
  have hlen : rids.length = n := by
    rw [hperm.length_eq, List.length_range]
  have hmem : i ∈ rids := hperm.mem_iff.mpr (List.mem_range.mpr hi)
  have hjlt : rids.indexOf i < rids.length := List.indexOf_lt_length.mpr hmem
  have hgetj : rids.getD (rids.indexOf i) 0 = i := by
    rw [List.getD_eq_getElem?_getD, List.getElem?_eq_getElem hjlt]
    simp [List.getElem_indexOf hjlt]
  have hil : i < rids.length := by omega
  have hL : focalLabeling rids i
      = (rids.set (rids.indexOf i) (rids.getD i 0)).set i i := rfl
  have hALen : i < (rids.set (rids.indexOf i) (rids.getD i 0)).length := by
    simpa using hil
  refine ⟨?_, ?_, ?_, ?_⟩
  · rw [hL, getD_set_self _ _ _ _ hALen]
  · by_cases hji : rids.indexOf i = i
    · have hgetj2 : rids.getD i 0 = i := by
        have hx := hgetj
        rw [hji] at hx
        exact hx
      rw [hL, hji, getD_set_self _ _ _ _
        (by simpa using hil : i < (rids.set i (rids.getD i 0)).length)]
      exact hgetj2.symm
    · rw [hL, getD_set_ne _ _ _ _ _ (fun he => hji he.symm),
        getD_set_self _ _ _ _ (by simpa using hjlt)]
  · intro m hm hmi hmj
    rw [hL, getD_set_ne _ _ _ _ _ (fun he => hmi he.symm),
      getD_set_ne _ _ _ _ _ (fun he => hmj he.symm)]
  · show ((((rids.set (rids.indexOf i) (rids.getD i 0)).set i i).set
        (rids.indexOf i) i).set i (rids.getD i 0)) = rids
    by_cases hji : rids.indexOf i = i
    · rw [hji, List.set_set, List.set_set, List.set_set]
      exact set_getD_self rids i 0 hil
    · rw [List.set_comm i i _ (fun he => hji he.symm), List.set_set,
        List.set_set]
      have hA : rids.set (rids.indexOf i) i = rids := by
        have hx := set_getD_self rids (rids.indexOf i) 0 hjlt
        rwa [hgetj] at hx
      rw [hA]
      exact set_getD_self rids i 0 hil

/-- Witness for the amended C2 at `rids = [2, 0, 1]`, `n = 3`, `i = 1`. -/
theorem C2_focal_trial_labeling_witness :
    (focalLabeling [2, 0, 1] 1).getD 1 0 = 1
    ∧ (focalLabeling [2, 0, 1] 1).getD (([2, 0, 1] : List ℕ).indexOf 1) 0
        = ([2, 0, 1] : List ℕ).getD 1 0
    ∧ (∀ m, m < 3 → m ≠ 1 → m ≠ ([2, 0, 1] : List ℕ).indexOf 1 →
        (focalLabeling [2, 0, 1] 1).getD m 0 = ([2, 0, 1] : List ℕ).getD m 0)
    ∧ focalRestore [2, 0, 1] (focalLabeling [2, 0, 1] 1) 1 = [2, 0, 1] :=
  C2_focal_trial_labeling [2, 0, 1] 3 1 (by decide) (by decide)

/-- Lengths of filtered ranges as integer-valued indicator sums. -/
theorem length_filter_range (n : ℕ) (p : ℕ → Bool) :
    (((List.range n).filter p).length : ℤ)
      = ∑ j ∈ Finset.range n, if p j then (1 : ℤ) else 0 := by
  induction n with
  | zero => simp
  | succ m ih =>
    rw [List.range_succ, List.filter_append, List.length_append,
      Finset.sum_range_succ, ← ih]
    push_cast
    by_cases h : p m <;> simp [h]

/-- Diagonal entries of the within-`δ` spatial matrix are `1` when
`δ ≥ 0` (self-distance is zero). -/
theorem spacbin_self (s : List (ℚ × ℚ)) {δ : ℚ} (hδ : 0 ≤ δ) (i : ℕ) :
    spacbin s δ i i = true := by
  unfold spacbin closeS
  have h0 : sdist2 (s.getD i (0, 0)) (s.getD i (0, 0)) = 0 := by
    unfold sdist2; ring
  rw [h0, decide_eq_true hδ, decide_eq_true (sq_nonneg δ)]
  rfl

/-- Diagonal entries of the within-`τ` temporal matrix are `1` when
`τ ≥ 0`. -/
theorem timebin_self (t : List ℚ) {τ : ℚ} (hτ : 0 ≤ τ) (i : ℕ) :
    timebin t τ i i = true := by
  unfold timebin closeT
  rw [sub_self, decide_eq_true hτ,
    decide_eq_true (by norm_num [sq_nonneg τ] : ((0 : ℚ)) ^ 2 ≤ τ ^ 2)]
  rfl

/-- `spacbin.sum(axis=0) - 1` equals the spatial degree with self excluded
(the diagonal contributes the subtracted `1`). -/
theorem modSsum_eq_claimSDeg (s : List (ℚ × ℚ)) (δ : ℚ) (n i : ℕ)
    (hi : i < n) (hδ : 0 ≤ δ) :
    modSsum s δ n i = (claimSDeg s δ n i : ℤ) := by
  unfold modSsum claimSDeg
  rw [length_filter_range, length_filter_range]
  rw [← Finset.sum_erase_add _ _ (Finset.mem_range.mpr hi),
    ← Finset.sum_erase_add _ _ (Finset.mem_range.mpr hi)]
  rw [Finset.sum_congr rfl (fun j hj => by
    have hne : j ≠ i := Finset.ne_of_mem_erase hj
    have hb : (j != i) = true := by simpa using hne
    rw [hb, Bool.true_and] : ∀ j ∈ (Finset.range n).erase i,
        (if spacbin s δ j i then (1 : ℤ) else 0)
          = if ((j != i) && spacbin s δ j i) then (1 : ℤ) else 0)]
  simp [spacbin_self s hδ i]

/-- `timebin.sum(axis=0) - 1` equals the temporal degree with self
excluded. -/
theorem modTsum_eq_claimTDeg (t : List ℚ) (τ : ℚ) (n i : ℕ)
    (hi : i < n) (hτ : 0 ≤ τ) :
    modTsum t τ n i = (claimTDeg t τ n i : ℤ) := by
  unfold modTsum claimTDeg
  rw [length_filter_range, length_filter_range]
  rw [← Finset.sum_erase_add _ _ (Finset.mem_range.mpr hi),
    ← Finset.sum_erase_add _ _ (Finset.mem_range.mpr hi)]
  rw [Finset.sum_congr rfl (fun j hj => by
    have hne : j ≠ i := Finset.ne_of_mem_erase hj
    have hb : (j != i) = true := by simpa using hne
    rw [hb, Bool.true_and] : ∀ j ∈ (Finset.range n).erase i,
        (if timebin t τ j i then (1 : ℤ) else 0)
          = if ((j != i) && timebin t τ j i) then (1 : ℤ) else 0)]
  simp [timebin_self t hτ i]

/-- **C10**: for `n ≥ 2` (and the nonnegative thresholds implicit in the
claim's "diagonal is 1" reading), the modified Knox statistic equals
`(obsstat - expstat/(n-1))/2` with `obsstat` the summed elementwise AND of
the two threshold matrices minus `n`, and `expstat` the sum of products of
the self-excluded spatial and temporal degrees. -/
theorem C10_modified_knox_formula (s : List (ℚ × ℚ)) (t : List ℚ) (δ τ : ℚ)
    (hn : 2 ≤ t.length) (hδ : 0 ≤ δ) (hτ : 0 ≤ τ) :
    modKnoxStat s t δ τ
      = ((modObsstat s t δ τ : ℚ)
          - (claimExpstat s t δ τ : ℚ) / ((t.length : ℚ) - 1)) / 2
    ∧ modExpstat s t δ τ = claimExpstat s t δ τ := by
  have hexp : modExpstat s t δ τ = claimExpstat s t δ τ := by
    unfold modExpstat claimExpstat
    apply Finset.sum_congr rfl
    intro i hi
    rw [modSsum_eq_claimSDeg s δ _ i (Finset.mem_range.mp hi) hδ,
      modTsum_eq_claimTDeg t τ _ i (Finset.mem_range.mp hi) hτ]
  constructor
  · unfold modKnoxStat
    rw [hexp]
  · exact hexp

/-- Witness for C10 at a concrete three-event input. -/
theorem C10_modified_knox_formula_witness :
    modKnoxStat [((0 : ℚ), 0), (1, 0), (5, 5)] [0, 1, 10] 2 2
      = ((modObsstat [((0 : ℚ), 0), (1, 0), (5, 5)] [0, 1, 10] 2 2 : ℚ)
          - (claimExpstat [((0 : ℚ), 0), (1, 0), (5, 5)] [0, 1, 10] 2 2 : ℚ)
            / ((([0, 1, 10] : List ℚ).length : ℚ) - 1)) / 2
    ∧ modExpstat [((0 : ℚ), 0), (1, 0), (5, 5)] [0, 1, 10] 2 2
      = claimExpstat [((0 : ℚ), 0), (1, 0), (5, 5)] [0, 1, 10] 2 2 :=
  C10_modified_knox_formula [((0 : ℚ), 0), (1, 0), (5, 5)] [0, 1, 10] 2 2
    (by decide) (by norm_num) (by norm_num)

end Spacetime
